import Mathlib

/-!
TripleBuffer.hpp: index rotation of a three-slot exchange buffer.

Shallow embedding of `src/TripleBuffer.hpp`.

* The three `std::size_t` members `latestBuffer`, `readBuffer`, `writeBuffer`
  are natural numbers; the one arithmetic expression of the class,
  `buffers.size() - (latestBuffer + readBuffer)`, is computed modulo `2 ^ 64`.
* `std::array<Buffer, 3>` is a function `Fin 3 → Buffer`.
* A returned `Buffer&` is the slot it refers to, a `Fin 3`; `buffers[i]` with
  `i ≥ 3` has no defined behaviour and is `none`.
* The mutex only serialises the calls, so a call is one atomic transition.
-/

/-- Modulus of `std::size_t` arithmetic. -/
def sizeMod : Nat := 2 ^ 64

/-- Unsigned `a + b` on `std::size_t`. -/
def sizeAdd (a b : Nat) : Nat := (a + b) % sizeMod

/-- Unsigned `a - b` on `std::size_t` (wraps when `b > a`). -/
def sizeSub (a b : Nat) : Nat := (a % sizeMod + sizeMod - b % sizeMod) % sizeMod

/-- The class `TripleBuffer<Buffer>`: its data members, lines 69-73. -/
structure TripleBuffer (Buffer : Type) where
  latestBuffer : Nat
  readBuffer : Nat
  writeBuffer : Nat
  buffers : Fin 3 → Buffer

namespace TripleBuffer

variable {Buffer : Type}

/-- Constructor `TripleBuffer()` (line 19): the indices take their default member
initialisers, the slots are value-initialised. -/
def mkDefault [Inhabited Buffer] : TripleBuffer Buffer :=
  { latestBuffer := 0, readBuffer := 0, writeBuffer := 1, buffers := fun _ => default }

/-- Constructor `TripleBuffer(const std::array<Buffer, 3>& buffers)` (line 25). -/
def mkFromBuffers (buffers : Fin 3 → Buffer) : TripleBuffer Buffer :=
  { latestBuffer := 0, readBuffer := 0, writeBuffer := 1, buffers := buffers }

/-- The value of `buffers.size()`. -/
def buffersSize (_tb : TripleBuffer Buffer) : Nat := 3

/-- The subscript `buffers[i]` as a reference: the slot `i`, defined only for `i < 3`. -/
def slotRef (i : Nat) : Option (Fin 3) :=
  if h : i < 3 then some ⟨i, h⟩ else none

/-- The local `nextWriteBufferIndex` of `nextWriteBuffer` (line 37), computed from the
state in which `latestBuffer` has already been overwritten. -/
def nextWriteBufferIndex (tb : TripleBuffer Buffer) : Nat :=
  sizeSub tb.buffersSize (sizeAdd tb.latestBuffer tb.readBuffer)

/-- Member `nextWriteBuffer` (lines 33-41): the new object state and the returned slot. -/
def nextWriteBuffer (tb : TripleBuffer Buffer) : TripleBuffer Buffer × Option (Fin 3) :=
  let tb1 := { tb with latestBuffer := tb.writeBuffer }
  let tb2 := { tb1 with writeBuffer := tb1.nextWriteBufferIndex }
  (tb2, slotRef tb2.writeBuffer)

/-- Member `nextReadBuffer` (lines 45-51): the new object state and the returned slot. -/
def nextReadBuffer (tb : TripleBuffer Buffer) : TripleBuffer Buffer × Option (Fin 3) :=
  let tb1 := { tb with readBuffer := tb.latestBuffer }
  (tb1, slotRef tb1.readBuffer)

/-- Member `_writeIndex` (line 53). -/
def _writeIndex (tb : TripleBuffer Buffer) : Nat := tb.writeBuffer

/-- Member `_readIndex` (line 56). -/
def _readIndex (tb : TripleBuffer Buffer) : Nat := tb.readBuffer

/-- Member `_latestIndex` (line 59). -/
def _latestIndex (tb : TripleBuffer Buffer) : Nat := tb.latestBuffer

/-- Member `_buffers` (line 62). -/
def _buffers (tb : TripleBuffer Buffer) : Fin 3 → Buffer := tb.buffers

/-! ## Call sequences -/

/-- The two rotation operations a caller can invoke. -/
inductive Call where
  | write
  | read
  deriving DecidableEq, Repr

/-- One call of a rotation operation: new state and returned slot. -/
def call (tb : TripleBuffer Buffer) : Call → TripleBuffer Buffer × Option (Fin 3)
  | Call.write => tb.nextWriteBuffer
  | Call.read => tb.nextReadBuffer

/-- State after a finite sequence of calls, executed left to right. -/
def run (tb : TripleBuffer Buffer) : List Call → TripleBuffer Buffer
  | [] => tb
  | c :: cs => run (tb.call c).1 cs

/-- The slots returned by a finite sequence of calls, in call order. -/
def returns (tb : TripleBuffer Buffer) : List Call → List (Call × Option (Fin 3))
  | [] => []
  | c :: cs => (c, (tb.call c).2) :: returns (tb.call c).1 cs

/-- The triple `(write, read, latest)` of the spec's rotator state. -/
def indices (tb : TripleBuffer Buffer) : Nat × Nat × Nat :=
  (tb.writeBuffer, tb.readBuffer, tb.latestBuffer)

/-- Indices in `{0,1,2}` together with invariant I1: `write ∉ {read, latest}`. -/
def Valid (tb : TripleBuffer Buffer) : Prop :=
  tb.writeBuffer < 3 ∧ tb.readBuffer < 3 ∧ tb.latestBuffer < 3 ∧
    tb.writeBuffer ≠ tb.readBuffer ∧ tb.writeBuffer ≠ tb.latestBuffer

instance (tb : TripleBuffer Buffer) : Decidable tb.Valid := by
  unfold Valid; infer_instance

/-- A freshly constructed buffer whose three slots hold `0`. -/
def fresh0 : TripleBuffer Nat := mkFromBuffers (fun _ => 0)

/-- The slot returned by the most recent `nextReadBuffer` call of a list of returned slots
(in call order), `none` when the list has no such call. -/
def lastReadReturn : List (Call × Option (Fin 3)) → Option (Option (Fin 3))
  | [] => none
  | (c, r) :: es =>
    match lastReadReturn es with
    | some p => some p
    | none => if c = Call.read then some r else none

/-! ## Sequential model of the stress test -/

/-- State of the stress test: the shared buffer of counters, the number of producer cycles
completed so far, and the values the consumer has read, oldest first. -/
structure Stress where
  tb : TripleBuffer Nat
  produced : Nat
  observed : List Nat

/-- One whole cycle of the producer or of the consumer. -/
inductive Cycle where
  | producer
  | consumer
  deriving DecidableEq, Repr

/-- Start of the stress test: a fresh buffer whose slots hold `0`, nothing produced or
read. -/
def Stress.init : Stress := { tb := fresh0, produced := 0, observed := [] }

/-- Producer cycle number `produced + 1`: `nextWriteBuffer`, then store the cycle number in
the returned slot. Undefined when the call returns no slot of the array. -/
def Stress.producerCycle (st : Stress) : Option Stress :=
  st.tb.nextWriteBuffer.2.map fun i =>
    { tb := { st.tb.nextWriteBuffer.1 with
              buffers := Function.update st.tb.nextWriteBuffer.1.buffers i (st.produced + 1) },
      produced := st.produced + 1,
      observed := st.observed }

/-- Consumer cycle: `nextReadBuffer`, then read the returned slot. Undefined when the call
returns no slot of the array. -/
def Stress.consumerCycle (st : Stress) : Option Stress :=
  st.tb.nextReadBuffer.2.map fun i =>
    { tb := st.tb.nextReadBuffer.1,
      produced := st.produced,
      observed := st.observed ++ [st.tb.nextReadBuffer.1.buffers i] }

/-- One cycle of the given role. -/
def Stress.cycle (st : Stress) : Cycle → Option Stress
  | Cycle.producer => st.producerCycle
  | Cycle.consumer => st.consumerCycle

/-- An interleaving of whole cycles, executed left to right. -/
def Stress.run (st : Stress) : List Cycle → Option Stress
  | [] => some st
  | c :: cs => (st.cycle c).bind fun st1 => st1.run cs

/-- Invariant of the stress test: the indices are valid, the `write` slot holds the number
of the last producer cycle, the `latest` slot holds the number before it, and the values
read so far are non-decreasing and bounded by the content of the `latest` slot. -/
def Stress.Inv (st : Stress) : Prop :=
  st.tb.Valid ∧
  (∀ i : Fin 3, i.val = st.tb.writeBuffer → st.tb.buffers i = st.produced) ∧
  (∀ i : Fin 3, i.val = st.tb.latestBuffer → st.tb.buffers i = st.produced - 1) ∧
  (∀ x ∈ st.observed, x ≤ st.produced - 1) ∧
  st.observed.Pairwise (· ≤ ·)

/-! ## Callers that use the returned reference -/

/-- Producer step: `nextWriteBuffer`, then assign `v` through the returned reference. Gives
the new object and the slot that was returned; undefined when the call returns no slot of
the array. -/
def writeValue (tb : TripleBuffer Buffer) (v : Buffer) : Option (TripleBuffer Buffer × Fin 3) :=
  tb.nextWriteBuffer.2.map fun i =>
    ({ tb.nextWriteBuffer.1 with
        buffers := Function.update tb.nextWriteBuffer.1.buffers i v }, i)

/-- Consumer step: `nextReadBuffer`, then read through the returned reference. Gives the new
object, the slot that was returned and the value found in it; undefined when the call
returns no slot of the array. -/
def readValue (tb : TripleBuffer Buffer) : Option (TripleBuffer Buffer × Fin 3 × Buffer) :=
  tb.nextReadBuffer.2.map fun i => (tb.nextReadBuffer.1, i, tb.nextReadBuffer.1.buffers i)

/-! ## Index configurations -/

/-- The object whose indices `(write, read, latest)` are the triple `t` and whose slots
are `b`. -/
def ofIndices (t : Nat × Nat × Nat) (b : Fin 3 → Buffer) : TripleBuffer Buffer :=
  { latestBuffer := t.2.2, readBuffer := t.2.1, writeBuffer := t.1, buffers := b }

/-- The triples `(write, read, latest)` over `{0,1,2}` that satisfy I1. -/
def validConfigurations : Finset (Nat × Nat × Nat) :=
  (Finset.range 3 ×ˢ Finset.range 3 ×ˢ Finset.range 3).filter
    fun t => (ofIndices t (fun _ => ())).Valid

end TripleBuffer

namespace TripleBuffer

variable {Buffer : Type}

/-! ## Arithmetic of the rotation -/

theorem nextWriteBufferIndex_eq (tb : TripleBuffer Buffer)
    (h : tb.latestBuffer + tb.readBuffer ≤ 3) :
    tb.nextWriteBufferIndex = 3 - (tb.latestBuffer + tb.readBuffer) := by
  unfold nextWriteBufferIndex sizeSub sizeAdd sizeMod buffersSize
  omega

theorem slotRef_of_lt {i : Nat} (h : i < 3) : slotRef i = some ⟨i, h⟩ := by
  unfold slotRef; simp [h]

theorem valid_nextWriteBuffer (tb : TripleBuffer Buffer) (h : tb.Valid) :
    tb.nextWriteBuffer.1.Valid := by
  obtain ⟨l, r, w, b⟩ := tb
  obtain ⟨hw, hr, hl, h1, h2⟩ := h
  simp only at hw hr hl h1 h2
  have e := nextWriteBufferIndex_eq
    ({ latestBuffer := w, readBuffer := r, writeBuffer := w, buffers := b } : TripleBuffer Buffer)
    (by simp only; omega)
  simp only [Valid, nextWriteBuffer, e]
  omega

theorem valid_nextReadBuffer (tb : TripleBuffer Buffer) (h : tb.Valid) :
    tb.nextReadBuffer.1.Valid := by
  obtain ⟨hw, hr, hl, h1, h2⟩ := h
  simp only [Valid, nextReadBuffer]
  omega

theorem valid_call (tb : TripleBuffer Buffer) (h : tb.Valid) (c : Call) :
    (tb.call c).1.Valid := by
  cases c
  · exact valid_nextWriteBuffer tb h
  · exact valid_nextReadBuffer tb h

theorem valid_run (cs : List Call) (tb : TripleBuffer Buffer) (h : tb.Valid) :
    (tb.run cs).Valid := by
  induction cs generalizing tb with
  | nil => exact h
  | cons c cs ih => exact ih _ (valid_call tb h c)

theorem valid_mkFromBuffers (b : Fin 3 → Buffer) : (mkFromBuffers b).Valid := by
  simp [Valid, mkFromBuffers]

theorem valid_mkDefault [Inhabited Buffer] : (mkDefault : TripleBuffer Buffer).Valid := by
  simp [Valid, mkDefault]

/-! ## Single calls -/

/-- C1: for every finite sequence of `nextWriteBuffer` / `nextReadBuffer` calls applied to
a freshly constructed buffer (either constructor), after every call (every prefix of the
sequence) `write`, `read` and `latest` are in `{0,1,2}` and `write` differs from both
`read` and `latest`. -/
theorem C1_invariant_after_every_call [Inhabited Buffer] (b : Fin 3 → Buffer)
    (cs : List Call) (n : Nat) :
    ((mkFromBuffers b).run (cs.take n)).Valid ∧
      ((mkDefault : TripleBuffer Buffer).run (cs.take n)).Valid :=
  ⟨valid_run _ _ (valid_mkFromBuffers b), valid_run _ _ valid_mkDefault⟩

/-- C2: on a state with indices in `{0,1,2}` satisfying I1, `nextWriteBuffer` sets `latest`
to the old `write`, keeps `read` (and the slots), sets `write` to `3 - (latest + read)` with
no wrap-around, which is the unique index below 3 different from the new `latest` and from
`read`, returns the slot at the new `write` index, and leaves the three indices pairwise
distinct. -/
theorem C2_nextWriteBuffer_rotation (tb : TripleBuffer Buffer) (h : tb.Valid) :
    tb.nextWriteBuffer.1.latestBuffer = tb.writeBuffer ∧
    tb.nextWriteBuffer.1.readBuffer = tb.readBuffer ∧
    tb.nextWriteBuffer.1.buffers = tb.buffers ∧
    tb.nextWriteBuffer.1.latestBuffer + tb.nextWriteBuffer.1.readBuffer ≤ 3 ∧
    tb.nextWriteBuffer.1.writeBuffer =
      3 - (tb.nextWriteBuffer.1.latestBuffer + tb.nextWriteBuffer.1.readBuffer) ∧
    tb.nextWriteBuffer.1.writeBuffer < 3 ∧
    tb.nextWriteBuffer.1.writeBuffer ≠ tb.nextWriteBuffer.1.latestBuffer ∧
    tb.nextWriteBuffer.1.writeBuffer ≠ tb.nextWriteBuffer.1.readBuffer ∧
    (∀ i : Fin 3, i.val ≠ tb.nextWriteBuffer.1.latestBuffer ∧
        i.val ≠ tb.nextWriteBuffer.1.readBuffer ↔ i.val = tb.nextWriteBuffer.1.writeBuffer) ∧
    tb.nextWriteBuffer.2.map Fin.val = some tb.nextWriteBuffer.1.writeBuffer ∧
    tb.nextWriteBuffer.1.latestBuffer ≠ tb.nextWriteBuffer.1.readBuffer := by
  obtain ⟨l, r, w, b⟩ := tb
  obtain ⟨hw, hr, hl, h1, h2⟩ := h
  simp only at hw hr hl h1 h2
  have e := nextWriteBufferIndex_eq
    ({ latestBuffer := w, readBuffer := r, writeBuffer := w, buffers := b } : TripleBuffer Buffer)
    (by simp only; omega)
  simp only at e
  have hlt : 3 - (w + r) < 3 := by omega
  simp only [nextWriteBuffer, e, slotRef_of_lt hlt, Option.map_some']
  refine ⟨trivial, trivial, trivial, by omega, trivial, by omega, by omega, by omega, ?_,
    trivial, by omega⟩
  intro i
  have := i.isLt
  omega

/-- C2 at the freshly constructed buffer `(write, read, latest) = (1, 0, 0)`. -/
theorem C2_nextWriteBuffer_rotation_witness :
    fresh0.Valid ∧
    (fresh0.nextWriteBuffer.1.latestBuffer = fresh0.writeBuffer ∧
    fresh0.nextWriteBuffer.1.readBuffer = fresh0.readBuffer ∧
    fresh0.nextWriteBuffer.1.buffers = fresh0.buffers ∧
    fresh0.nextWriteBuffer.1.latestBuffer + fresh0.nextWriteBuffer.1.readBuffer ≤ 3 ∧
    fresh0.nextWriteBuffer.1.writeBuffer =
      3 - (fresh0.nextWriteBuffer.1.latestBuffer + fresh0.nextWriteBuffer.1.readBuffer) ∧
    fresh0.nextWriteBuffer.1.writeBuffer < 3 ∧
    fresh0.nextWriteBuffer.1.writeBuffer ≠ fresh0.nextWriteBuffer.1.latestBuffer ∧
    fresh0.nextWriteBuffer.1.writeBuffer ≠ fresh0.nextWriteBuffer.1.readBuffer ∧
    (∀ i : Fin 3, i.val ≠ fresh0.nextWriteBuffer.1.latestBuffer ∧
        i.val ≠ fresh0.nextWriteBuffer.1.readBuffer ↔
          i.val = fresh0.nextWriteBuffer.1.writeBuffer) ∧
    fresh0.nextWriteBuffer.2.map Fin.val = some fresh0.nextWriteBuffer.1.writeBuffer ∧
    fresh0.nextWriteBuffer.1.latestBuffer ≠ fresh0.nextWriteBuffer.1.readBuffer) :=
  ⟨by decide, C2_nextWriteBuffer_rotation fresh0 (by decide)⟩

/-- C3: for every state, `nextReadBuffer` sets `read` to the current `latest`, leaves
`write`, `latest` (and the slots) unchanged, and returns `buffers[read]` for the new `read`:
the slot `latest` whenever that index is inside the array. -/
theorem C3_nextReadBuffer_effect (tb : TripleBuffer Buffer) :
    tb.nextReadBuffer.1.readBuffer = tb.latestBuffer ∧
    tb.nextReadBuffer.1.writeBuffer = tb.writeBuffer ∧
    tb.nextReadBuffer.1.latestBuffer = tb.latestBuffer ∧
    tb.nextReadBuffer.1.buffers = tb.buffers ∧
    tb.nextReadBuffer.2 = slotRef tb.nextReadBuffer.1.readBuffer ∧
    tb.nextReadBuffer.2.map Fin.val =
      (if tb.latestBuffer < 3 then some tb.latestBuffer else none) := by
  refine ⟨rfl, rfl, rfl, rfl, rfl, ?_⟩
  simp only [nextReadBuffer, slotRef]
  split <;> simp

/-- C6: a buffer built by either constructor reports `_writeIndex = 1`, `_readIndex = 0`
and `_latestIndex = 0`. -/
theorem C6_initial_state [Inhabited Buffer] (b : Fin 3 → Buffer) :
    ((mkDefault : TripleBuffer Buffer)._writeIndex = 1 ∧
      (mkDefault : TripleBuffer Buffer)._readIndex = 0 ∧
      (mkDefault : TripleBuffer Buffer)._latestIndex = 0) ∧
    ((mkFromBuffers b)._writeIndex = 1 ∧ (mkFromBuffers b)._readIndex = 0 ∧
      (mkFromBuffers b)._latestIndex = 0) :=
  ⟨⟨rfl, rfl, rfl⟩, ⟨rfl, rfl, rfl⟩⟩

theorem run_replicate_read (tb : TripleBuffer Buffer) (k : Nat) :
    (tb.nextReadBuffer.1.run (List.replicate k Call.read)) = tb.nextReadBuffer.1 := by
  induction k with
  | zero => rfl
  | succ k ih =>
    rw [List.replicate_succ, run]
    exact ih

/-- C7: `nextReadBuffer` is idempotent: for every state a second call right after the first
gives the same state and the same returned slot, and so does every further repetition. -/
theorem C7_nextReadBuffer_idempotent (tb : TripleBuffer Buffer) (k : Nat) :
    tb.nextReadBuffer.1.nextReadBuffer = tb.nextReadBuffer ∧
    (tb.nextReadBuffer.1.run (List.replicate k Call.read)).nextReadBuffer =
      tb.nextReadBuffer := by
  rw [run_replicate_read]
  exact ⟨rfl, rfl⟩

/-- C10: closure. From every state with indices in `{0,1,2}` and `write ∉ {read, latest}`,
one `nextWriteBuffer` call followed by one `nextReadBuffer` call yields a state with
indices in `{0,1,2}` and `write ∉ {read, latest}`. -/
theorem C10_closure_write_then_read (tb : TripleBuffer Buffer) (h : tb.Valid) :
    tb.nextWriteBuffer.1.nextReadBuffer.1.Valid :=
  valid_nextReadBuffer _ (valid_nextWriteBuffer tb h)

/-- C10 at the state `(write, read, latest) = (2, 0, 1)`, which the closure step maps to
`(1, 2, 2)`. -/
theorem C10_closure_write_then_read_witness :
    fresh0.nextWriteBuffer.1.Valid ∧
      fresh0.nextWriteBuffer.1.nextWriteBuffer.1.nextReadBuffer.1.Valid :=
  ⟨by decide, C10_closure_write_then_read fresh0.nextWriteBuffer.1 (by decide)⟩

/-! ## Sequences of calls -/

theorem run_append (tb : TripleBuffer Buffer) (cs ds : List Call) :
    tb.run (cs ++ ds) = (tb.run cs).run ds := by
  induction cs generalizing tb with
  | nil => rfl
  | cons c cs ih => exact ih _

theorem run_writes_readBuffer (tb : TripleBuffer Buffer) (k : Nat) :
    (tb.run (List.replicate k Call.write)).readBuffer = tb.readBuffer := by
  induction k generalizing tb with
  | zero => rfl
  | succ k ih =>
    rw [List.replicate_succ, run, ih]
    rfl

theorem run_reads_writeBuffer (tb : TripleBuffer Buffer) (k : Nat) :
    (tb.run (List.replicate k Call.read)).writeBuffer = tb.writeBuffer := by
  induction k generalizing tb with
  | zero => rfl
  | succ k ih =>
    rw [List.replicate_succ, run, ih]
    rfl

theorem run_reads_latestBuffer (tb : TripleBuffer Buffer) (k : Nat) :
    (tb.run (List.replicate k Call.read)).latestBuffer = tb.latestBuffer := by
  induction k generalizing tb with
  | zero => rfl
  | succ k ih =>
    rw [List.replicate_succ, run, ih]
    rfl

theorem nextWriteBuffer_snd_of_valid (tb : TripleBuffer Buffer) (h : tb.Valid) :
    tb.nextWriteBuffer.2 =
      some ⟨tb.nextWriteBuffer.1.writeBuffer, (valid_nextWriteBuffer tb h).1⟩ :=
  slotRef_of_lt _

theorem nextReadBuffer_snd_of_valid (tb : TripleBuffer Buffer) (h : tb.Valid) :
    tb.nextReadBuffer.2 = some ⟨tb.latestBuffer, h.2.2.1⟩ :=
  slotRef_of_lt _

/-- C4: in every state reachable from the initial state, after `nextReadBuffer` returns
slot `s`, the `(k+1)`-th of the `nextWriteBuffer` calls that follow it with no
`nextReadBuffer` call in between returns a slot `w ≠ s`, for every `k`. -/
theorem C4_consumer_slot_not_handed_to_producer (b : Fin 3 → Buffer) (cs : List Call)
    (k : Nat) :
    ∃ s w : Fin 3,
      ((mkFromBuffers b).run cs).nextReadBuffer.2 = some s ∧
      ((((mkFromBuffers b).run cs).nextReadBuffer.1.run
        (List.replicate k Call.write)).nextWriteBuffer).2 = some w ∧
      w ≠ s := by
  have h0 : ((mkFromBuffers b).run cs).Valid := valid_run _ _ (valid_mkFromBuffers b)
  have h1 := valid_nextReadBuffer _ h0
  have h2 := valid_run (List.replicate k Call.write) _ h1
  have h3 := valid_nextWriteBuffer _ h2
  refine ⟨_, _, nextReadBuffer_snd_of_valid _ h0, nextWriteBuffer_snd_of_valid _ h2, ?_⟩
  intro heq
  have hv := congrArg Fin.val heq
  simp only at hv
  have hr : (((mkFromBuffers b).run cs).nextReadBuffer.1.run
      (List.replicate k Call.write)).nextWriteBuffer.1.readBuffer
      = ((mkFromBuffers b).run cs).latestBuffer := by
    have := run_writes_readBuffer ((mkFromBuffers b).run cs).nextReadBuffer.1 k
    simpa [nextWriteBuffer, nextReadBuffer] using this
  exact h3.2.2.2.1 (hv.trans hr.symm)

/-- C5: in every state reachable from the initial state, after `nextWriteBuffer` returns
slot `s`, the `(k+1)`-th of the `nextReadBuffer` calls that follow it with no
`nextWriteBuffer` call in between returns a slot `r ≠ s`, for every `k`. -/
theorem C5_producer_slot_not_handed_to_consumer (b : Fin 3 → Buffer) (cs : List Call)
    (k : Nat) :
    ∃ s r : Fin 3,
      ((mkFromBuffers b).run cs).nextWriteBuffer.2 = some s ∧
      ((((mkFromBuffers b).run cs).nextWriteBuffer.1.run
        (List.replicate k Call.read)).nextReadBuffer).2 = some r ∧
      r ≠ s := by
  have h0 : ((mkFromBuffers b).run cs).Valid := valid_run _ _ (valid_mkFromBuffers b)
  have h1 := valid_nextWriteBuffer _ h0
  have h2 := valid_run (List.replicate k Call.read) _ h1
  refine ⟨_, _, nextWriteBuffer_snd_of_valid _ h0, nextReadBuffer_snd_of_valid _ h2, ?_⟩
  intro heq
  have hv := congrArg Fin.val heq
  simp only at hv
  rw [run_reads_latestBuffer] at hv
  exact h1.2.2.2.2 hv.symm

/-! ## Publication latency -/

theorem lastReadReturn_returns (cs : List Call) (tb : TripleBuffer Buffer) :
    (lastReadReturn (tb.returns cs) = none ∧ (tb.run cs).readBuffer = tb.readBuffer) ∨
      lastReadReturn (tb.returns cs) = some (slotRef (tb.run cs).readBuffer) := by
  induction cs generalizing tb with
  | nil => exact Or.inl ⟨rfl, rfl⟩
  | cons c cs ih =>
    rcases ih (tb.call c).1 with ⟨hn, hr⟩ | hs
    · cases c
      · left
        refine ⟨?_, ?_⟩
        · simp only [returns, lastReadReturn, hn]
          simp
        · simp only [run]
          rw [hr]
          rfl
      · right
        simp only [returns, lastReadReturn, hn, run]
        simp only [if_true]
        rw [hr]
        rfl
    · right
      simp only [returns, lastReadReturn, hs, run]

/-- C8 fails as stated: on a fresh buffer the 1st `nextWriteBuffer` call returns slot 2;
after the 2nd `nextWriteBuffer` call two `nextReadBuffer` calls in a row both return
slot 2, so the later one returns the slot its previous `nextReadBuffer` call returned. -/
theorem C8_counterexample :
    fresh0.returns [Call.write, Call.write, Call.read, Call.read] =
      [(Call.write, some 2), (Call.write, some 1), (Call.read, some 2), (Call.read, some 2)] ∧
    fresh0.nextWriteBuffer.2 = some 2 ∧
    (fresh0.run [Call.write, Call.write, Call.read]).nextReadBuffer.2 = some 2 ∧
    lastReadReturn (fresh0.returns [Call.write, Call.write, Call.read]) = some (some 2) := by
  decide

/-- C8 (amended): in every state reachable from the initial state, if the N-th
`nextWriteBuffer` call returned slot `s`, every `nextReadBuffer` call made after the
(N+1)-th `nextWriteBuffer` call and before the (N+2)-th returns exactly `s`; and `s` is
different from the slot returned by the last `nextReadBuffer` call made before the
(N+1)-th `nextWriteBuffer` call, if there was one. -/
theorem C8_publication_latency (b : Fin 3 → Buffer) (cs : List Call) (j1 j2 : Nat) :
    ∃ s : Fin 3,
      ((mkFromBuffers b).run cs).nextWriteBuffer.2 = some s ∧
      ((mkFromBuffers b).run
          (cs ++ (Call.write :: List.replicate j1 Call.read) ++
            (Call.write :: List.replicate j2 Call.read))).nextReadBuffer.2 = some s ∧
      lastReadReturn ((mkFromBuffers b).returns
          (cs ++ (Call.write :: List.replicate j1 Call.read) ++ [Call.write])) ≠
        some (some s) := by
  have h0 : ((mkFromBuffers b).run cs).Valid := valid_run _ _ (valid_mkFromBuffers b)
  have h1 := valid_nextWriteBuffer _ h0
  have h2 := valid_run (List.replicate j1 Call.read) _ h1
  have h3 := valid_nextWriteBuffer _ h2
  have h4 := valid_run (List.replicate j2 Call.read) _ h3
  have e2 := run_reads_writeBuffer ((mkFromBuffers b).run cs).nextWriteBuffer.1 j1
  have e4 := run_reads_latestBuffer
    (((mkFromBuffers b).run cs).nextWriteBuffer.1.run
      (List.replicate j1 Call.read)).nextWriteBuffer.1 j2
  refine ⟨_, nextWriteBuffer_snd_of_valid _ h0, ?_, ?_⟩
  · simp only [run_append, run, call]
    rw [nextReadBuffer_snd_of_valid _ h4]
    simp only [Option.some.injEq, Fin.mk.injEq]
    rw [e4, ← e2]
    rfl
  · intro hlast
    rcases lastReadReturn_returns
        (cs ++ (Call.write :: List.replicate j1 Call.read) ++ [Call.write])
        (mkFromBuffers b) with ⟨hn, _⟩ | hs
    · rw [hn] at hlast
      exact Option.noConfusion hlast
    · rw [hs] at hlast
      simp only [run_append, run, call] at hlast
      rw [slotRef_of_lt h3.2.1] at hlast
      simp only [Option.some.injEq, Fin.mk.injEq] at hlast
      have h3r : (((mkFromBuffers b).run cs).nextWriteBuffer.1.run
          (List.replicate j1 Call.read)).nextWriteBuffer.1.readBuffer =
          (((mkFromBuffers b).run cs).nextWriteBuffer.1.run
            (List.replicate j1 Call.read)).readBuffer := rfl
      rw [h3r, ← e2] at hlast
      exact h2.2.2.2.1 hlast.symm

/-! ## Stress test -/

theorem Stress.inv_init : Stress.init.Inv := by
  refine ⟨by decide, ?_, ?_, ?_, List.Pairwise.nil⟩
  · intro i _; rfl
  · intro i _; rfl
  · intro x hx; cases hx

theorem Stress.producerCycle_spec (st : Stress) (h : st.Inv) :
    ∃ st1, st.producerCycle = some st1 ∧ st1.Inv ∧ st1.produced = st.produced + 1 := by
  obtain ⟨hv, hw, hl, ho, hp⟩ := h
  have hv1 := valid_nextWriteBuffer _ hv
  have e : st.producerCycle = some
      { tb := { st.tb.nextWriteBuffer.1 with
                buffers := Function.update st.tb.nextWriteBuffer.1.buffers
                  ⟨st.tb.nextWriteBuffer.1.writeBuffer, hv1.1⟩ (st.produced + 1) },
        produced := st.produced + 1,
        observed := st.observed } := by
    simp only [Stress.producerCycle, nextWriteBuffer_snd_of_valid _ hv, Option.map_some']
  refine ⟨_, e, ⟨hv1, ?_, ?_, ?_, hp⟩, rfl⟩
  · intro i hi
    have : i = ⟨st.tb.nextWriteBuffer.1.writeBuffer, hv1.1⟩ := Fin.ext hi
    show Function.update st.tb.nextWriteBuffer.1.buffers
      ⟨st.tb.nextWriteBuffer.1.writeBuffer, hv1.1⟩ (st.produced + 1) i = st.produced + 1
    rw [this, Function.update_same]
  · intro i hi
    have hne : i ≠ ⟨st.tb.nextWriteBuffer.1.writeBuffer, hv1.1⟩ := by
      intro heq
      have := congrArg Fin.val heq
      simp only at this
      exact hv1.2.2.2.2 (this.symm.trans hi)
    show Function.update st.tb.nextWriteBuffer.1.buffers
      ⟨st.tb.nextWriteBuffer.1.writeBuffer, hv1.1⟩ (st.produced + 1) i = st.produced + 1 - 1
    rw [Function.update_noteq hne, Nat.add_sub_cancel]
    exact hw i hi
  · intro x hx
    have := ho x hx
    show x ≤ st.produced + 1 - 1
    omega

theorem Stress.consumerCycle_spec (st : Stress) (h : st.Inv) :
    ∃ st1, st.consumerCycle = some st1 ∧ st1.Inv ∧ st1.produced = st.produced ∧
      st1.observed = st.observed ++ [st.produced - 1] := by
  obtain ⟨hv, hw, hl, ho, hp⟩ := h
  have hv1 := valid_nextReadBuffer _ hv
  have hval : st.tb.nextReadBuffer.1.buffers ⟨st.tb.latestBuffer, hv.2.2.1⟩ =
      st.produced - 1 := hl _ rfl
  have e : st.consumerCycle = some
      { tb := st.tb.nextReadBuffer.1,
        produced := st.produced,
        observed := st.observed ++
          [st.tb.nextReadBuffer.1.buffers ⟨st.tb.latestBuffer, hv.2.2.1⟩] } := by
    simp only [Stress.consumerCycle, nextReadBuffer_snd_of_valid _ hv, Option.map_some']
  refine ⟨_, e, ⟨hv1, hw, hl, ?_, ?_⟩, rfl, ?_⟩
  · intro x hx
    rw [hval] at hx
    rcases List.mem_append.1 hx with hx | hx
    · exact ho x hx
    · rw [List.mem_singleton.1 hx]
  · rw [hval]
    refine List.pairwise_append.2 ⟨hp, List.pairwise_singleton _ _, ?_⟩
    intro x hx y hy
    rw [List.mem_singleton.1 hy]
    exact ho x hx
  · rw [hval]

theorem Stress.run_spec (cs : List Cycle) (st : Stress) (h : st.Inv) :
    ∃ st1, st.run cs = some st1 ∧ st1.Inv ∧
      st1.produced = st.produced + cs.count Cycle.producer := by
  induction cs generalizing st with
  | nil => exact ⟨st, rfl, h, rfl⟩
  | cons c cs ih =>
    cases c
    · obtain ⟨st1, e1, i1, p1⟩ := Stress.producerCycle_spec st h
      obtain ⟨st2, e2, i2, p2⟩ := ih st1 i1
      refine ⟨st2, ?_, i2, ?_⟩
      · simp only [Stress.run, Stress.cycle, e1, Option.some_bind, e2]
      · rw [p2, p1, List.count_cons_self]
        omega
    · obtain ⟨st1, e1, i1, p1, _⟩ := Stress.consumerCycle_spec st h
      obtain ⟨st2, e2, i2, p2⟩ := ih st1 i1
      refine ⟨st2, ?_, i2, ?_⟩
      · simp only [Stress.run, Stress.cycle, e1, Option.some_bind, e2]
      · rw [p2, p1, List.count_cons_of_ne (by decide)]

/-- C9: in the sequential stress test started from a fresh buffer of zeros, every
interleaving `cs` of whole producer and consumer cycles runs to completion, the values the
consumer has read form a non-decreasing sequence, and a consumer cycle run next reads
exactly `n - 1`, where `n` is the number of producer cycles in `cs` (`0` when `n = 0`). -/
theorem C9_stress_test_reads (cs : List Cycle) :
    ∃ st st1 : Stress,
      Stress.init.run cs = some st ∧
      st.observed.Pairwise (· ≤ ·) ∧
      st.consumerCycle = some st1 ∧
      st1.observed = st.observed ++ [cs.count Cycle.producer - 1] := by
  obtain ⟨st, e, i, p⟩ := Stress.run_spec cs Stress.init Stress.inv_init
  obtain ⟨st1, e1, _, _, o1⟩ := Stress.consumerCycle_spec st i
  refine ⟨st, st1, e, i.2.2.2.2, e1, ?_⟩
  rw [o1, p]
  simp [Stress.init]

/-! ## Worked trace -/

/-- C11 fails as stated: on a fresh buffer the calls write, write, read, write, read return
the slots 2, 1, 2, 0, 1 (the claim has 1, 2, 1, 0, 2), and `latest` is 2 after the 2nd
`nextWriteBuffer` call and 1 after the 3rd (the claim has 1 and 2). -/
theorem C11_counterexample :
    fresh0.returns [Call.write, Call.write, Call.read, Call.write, Call.read] =
      [(Call.write, some 2), (Call.write, some 1), (Call.read, some 2),
        (Call.write, some 0), (Call.read, some 1)] ∧
    fresh0.nextWriteBuffer.2 ≠ some 1 ∧
    (fresh0.run [Call.write, Call.write]).latestBuffer = 2 ∧
    (fresh0.run [Call.write, Call.write, Call.read, Call.write]).latestBuffer = 1 := by
  decide


theorem writeValue_mk (l r w : Nat) (b : Fin 3 → Buffer) (v : Buffer) (i : Fin 3) (n : Nat)
    (h : sizeSub 3 (sizeAdd w r) = n) (hn : i.val = n) :
    (TripleBuffer.mk l r w b).writeValue v =
      some (TripleBuffer.mk w r n (Function.update b i v), i) := by
  have hs : (TripleBuffer.mk l r w b).nextWriteBuffer.2 = some i := by
    show slotRef (sizeSub 3 (sizeAdd w r)) = some i
    rw [h, ← hn]
    exact slotRef_of_lt i.isLt
  have hw : (TripleBuffer.mk l r w b).nextWriteBuffer.1.writeBuffer = n := h
  unfold writeValue
  rw [hs, Option.map_some']
  simp only [hw]
  rfl

theorem readValue_mk (l r w : Nat) (b : Fin 3 → Buffer) (i : Fin 3) (x : Buffer)
    (h : i.val = l) (hx : b i = x) :
    (TripleBuffer.mk l r w b).readValue = some (TripleBuffer.mk l l w b, i, x) := by
  have hs : (TripleBuffer.mk l r w b).nextReadBuffer.2 = some i := by
    show slotRef l = some i
    rw [← h]
    exact slotRef_of_lt i.isLt
  unfold readValue
  rw [hs, Option.map_some', ← hx]
  rfl

/-- C11 (amended): from a freshly constructed buffer, the 1st `nextWriteBuffer` call
returns slot 2 (the producer stores "A" there); the 2nd returns slot 1 and leaves
`latest = 2` (the producer stores "B"); a `nextReadBuffer` call then returns slot 2 holding
"A"; the 3rd `nextWriteBuffer` call returns slot 0 and leaves `latest = 1` (the producer
stores "C"); a `nextReadBuffer` call then returns slot 1 holding "B". -/
theorem C11_worked_trace (b : Fin 3 → String) :
    ∃ t1 t2 t3 t4 t5 : TripleBuffer String,
      (mkFromBuffers b).writeValue "A" = some (t1, 2) ∧
      t1.writeValue "B" = some (t2, 1) ∧ t2.latestBuffer = 2 ∧
      t2.readValue = some (t3, 2, "A") ∧
      t3.writeValue "C" = some (t4, 0) ∧ t4.latestBuffer = 1 ∧
      t4.readValue = some (t5, 1, "B") := by
  refine ⟨_, _, _, _, _,
    writeValue_mk 0 0 1 b "A" 2 2 (by decide) (by decide),
    writeValue_mk _ _ _ _ "B" 1 1 (by decide) (by decide), rfl,
    readValue_mk _ _ _ _ 2 "A" (by decide) ?_,
    writeValue_mk _ _ _ _ "C" 0 0 (by decide) (by decide), rfl,
    readValue_mk _ _ _ _ 1 "B" (by decide) ?_⟩
  · rw [Function.update_noteq (by decide), Function.update_same]
  · rw [Function.update_noteq (by decide), Function.update_same]

/-! ## Staleness window and bounds -/

theorem nextWriteBuffer_writeBuffer_of_valid (tb : TripleBuffer Buffer) (h : tb.Valid) :
    tb.nextWriteBuffer.1.writeBuffer = 3 - (tb.writeBuffer + tb.readBuffer) ∧
      tb.writeBuffer + tb.readBuffer ≤ 3 := by
  obtain ⟨hw, hr, _, h1, _⟩ := h
  have hle : tb.writeBuffer + tb.readBuffer ≤ 3 := by omega
  exact ⟨nextWriteBufferIndex_eq { tb with latestBuffer := tb.writeBuffer } hle, hle⟩

/-- C12: in every reachable state, after `nextReadBuffer` returns slot `s` (and is repeated
any number `k` of times), the first `nextWriteBuffer` call that follows returns a slot
`w ≠ s`; and when a `nextReadBuffer` call is made after that first `nextWriteBuffer` call,
the second `nextWriteBuffer` call returns `s` itself. -/
theorem C12_staleness_window (b : Fin 3 → Buffer) (cs : List Call) (k : Nat) :
    ∃ s w : Fin 3,
      ((mkFromBuffers b).run cs).nextReadBuffer.2 = some s ∧
      (((mkFromBuffers b).run cs).nextReadBuffer.1.run
        (List.replicate k Call.read)).nextWriteBuffer.2 = some w ∧
      w ≠ s ∧
      ((mkFromBuffers b).run cs).nextReadBuffer.1.nextWriteBuffer.1.nextReadBuffer.1.nextWriteBuffer.2
        = some s := by
  have h0 : ((mkFromBuffers b).run cs).Valid := valid_run _ _ (valid_mkFromBuffers b)
  have h1 := valid_nextReadBuffer _ h0
  have h2 := valid_nextWriteBuffer _ h1
  have h3 := valid_nextReadBuffer _ h2
  have h4 := valid_nextWriteBuffer _ h3
  have e1 := nextWriteBuffer_writeBuffer_of_valid _ h1
  have e3 := nextWriteBuffer_writeBuffer_of_valid _ h3
  refine ⟨⟨((mkFromBuffers b).run cs).latestBuffer, h0.2.2.1⟩,
    ⟨((mkFromBuffers b).run cs).nextReadBuffer.1.nextWriteBuffer.1.writeBuffer, h2.1⟩,
    nextReadBuffer_snd_of_valid _ h0, ?_, ?_, ?_⟩
  · rw [run_replicate_read]
    exact nextWriteBuffer_snd_of_valid _ h1
  · intro heq
    have hv := congrArg Fin.val heq
    exact h2.2.2.2.1 hv
  · rw [nextWriteBuffer_snd_of_valid _ h3]
    simp only [Option.some.injEq, Fin.mk.injEq]
    have a1 : ((mkFromBuffers b).run cs).nextReadBuffer.1.readBuffer =
        ((mkFromBuffers b).run cs).latestBuffer := rfl
    have a2 : ((mkFromBuffers b).run cs).nextReadBuffer.1.writeBuffer =
        ((mkFromBuffers b).run cs).writeBuffer := rfl
    have a3 : ((mkFromBuffers b).run cs).nextReadBuffer.1.nextWriteBuffer.1.nextReadBuffer.1.readBuffer
        = ((mkFromBuffers b).run cs).writeBuffer := rfl
    have a4 : ((mkFromBuffers b).run cs).nextReadBuffer.1.nextWriteBuffer.1.nextReadBuffer.1.writeBuffer
        = ((mkFromBuffers b).run cs).nextReadBuffer.1.nextWriteBuffer.1.writeBuffer := rfl
    have hw := h0.1
    have hl := h0.2.2.1
    have hne := h0.2.2.2.2
    rw [e3.1, a3, a4, e1.1, a1, a2]
    omega

/-- C13: on every state with indices in `{0,1,2}` satisfying I1, the sum `latest + read`
that `nextWriteBuffer` forms after overwriting `latest` does not overflow and is at most 3,
the `std::size_t` subtraction `buffers.size() - (latest + read)` equals the exact
difference, the indices used to subscript the array in `nextWriteBuffer` and in
`nextReadBuffer` are below 3, and both calls return a slot. -/
theorem C13_total_and_in_bounds (tb : TripleBuffer Buffer) (h : tb.Valid) :
    sizeAdd tb.nextWriteBuffer.1.latestBuffer tb.readBuffer =
      tb.nextWriteBuffer.1.latestBuffer + tb.readBuffer ∧
    tb.nextWriteBuffer.1.latestBuffer + tb.readBuffer ≤ 3 ∧
    nextWriteBufferIndex { tb with latestBuffer := tb.writeBuffer } + (tb.writeBuffer + tb.readBuffer)
      = tb.buffersSize ∧
    tb.nextWriteBuffer.1.writeBuffer < 3 ∧
    tb.nextReadBuffer.1.readBuffer < 3 ∧
    tb.nextWriteBuffer.2.isSome = true ∧
    tb.nextReadBuffer.2.isSome = true := by
  have e := nextWriteBuffer_writeBuffer_of_valid tb h
  have hv := valid_nextWriteBuffer tb h
  have hl : tb.nextWriteBuffer.1.latestBuffer = tb.writeBuffer := rfl
  have hi : nextWriteBufferIndex { tb with latestBuffer := tb.writeBuffer } =
      tb.nextWriteBuffer.1.writeBuffer := rfl
  refine ⟨?_, ?_, ?_, hv.1, h.2.2.1, ?_, ?_⟩
  · rw [hl]
    unfold sizeAdd sizeMod
    have := e.2
    omega
  · rw [hl]; exact e.2
  · rw [hi, e.1]
    show 3 - (tb.writeBuffer + tb.readBuffer) + (tb.writeBuffer + tb.readBuffer) = 3
    have := e.2
    omega
  · rw [nextWriteBuffer_snd_of_valid tb h]; rfl
  · rw [nextReadBuffer_snd_of_valid tb h]; rfl

/-- C13 at the freshly constructed buffer `(write, read, latest) = (1, 0, 0)`. -/
theorem C13_total_and_in_bounds_witness :
    fresh0.Valid ∧
    (sizeAdd fresh0.nextWriteBuffer.1.latestBuffer fresh0.readBuffer =
      fresh0.nextWriteBuffer.1.latestBuffer + fresh0.readBuffer ∧
    fresh0.nextWriteBuffer.1.latestBuffer + fresh0.readBuffer ≤ 3 ∧
    nextWriteBufferIndex { fresh0 with latestBuffer := fresh0.writeBuffer } +
        (fresh0.writeBuffer + fresh0.readBuffer)
      = fresh0.buffersSize ∧
    fresh0.nextWriteBuffer.1.writeBuffer < 3 ∧
    fresh0.nextReadBuffer.1.readBuffer < 3 ∧
    fresh0.nextWriteBuffer.2.isSome = true ∧
    fresh0.nextReadBuffer.2.isSome = true) :=
  ⟨by decide, C13_total_and_in_bounds fresh0 (by decide)⟩

/-! ## Configurations -/

/-- C14 fails as stated: the number of valid configurations is not 6; here are seven
different ones. -/
theorem C14_counterexample :
    validConfigurations.card ≠ 6 ∧
    ([(1, 0, 0), (2, 0, 1), (1, 0, 2), (2, 1, 1), (1, 2, 2), (0, 1, 2), (0, 2, 1)] :
      List (Nat × Nat × Nat)).Nodup ∧
    ∀ t ∈ ([(1, 0, 0), (2, 0, 1), (1, 0, 2), (2, 1, 1), (1, 2, 2), (0, 1, 2), (0, 2, 1)] :
      List (Nat × Nat × Nat)), (ofIndices t (fun _ => ())).Valid := by
  decide

/-- C14 (amended): the set of configurations `(write, read, latest)` over `{0,1,2}` in which
`write` differs from both `read` and `latest` has exactly 12 elements. -/
theorem C14_valid_configurations_card :
    (∀ t : Nat × Nat × Nat,
      t ∈ validConfigurations ↔
        (t.1 < 3 ∧ t.2.1 < 3 ∧ t.2.2 < 3 ∧ t.1 ≠ t.2.1 ∧ t.1 ≠ t.2.2)) ∧
    (∀ t : Nat × Nat × Nat, t ∈ validConfigurations ↔ (ofIndices t (fun _ => ())).Valid) ∧
    validConfigurations.card = 12 := by
  refine ⟨?_, ?_, by decide⟩
  · rintro ⟨w, r, l⟩
    simp only [validConfigurations, Finset.mem_filter, Finset.mem_product, Finset.mem_range,
      Valid, ofIndices]
    omega
  · rintro ⟨w, r, l⟩
    simp only [validConfigurations, Finset.mem_filter, Finset.mem_product, Finset.mem_range,
      Valid, ofIndices]
    omega

/-! ## Reads of constructor content -/

theorem run_reads_mkFromBuffers (b : Fin 3 → Buffer) (k : Nat) :
    (mkFromBuffers b).run (List.replicate k Call.read) = mkFromBuffers b :=
  run_replicate_read (mkFromBuffers b) k

theorem readValue_run_reads (tb : TripleBuffer Buffer) (j : Nat) :
    (tb.run (List.replicate j Call.read)).readValue = tb.readValue := by
  cases j with
  | zero => rfl
  | succ j =>
    rw [List.replicate_succ, run]
    show (tb.nextReadBuffer.1.run (List.replicate j Call.read)).readValue = tb.readValue
    rw [run_replicate_read]
    rfl

/-- C15: on a freshly constructed buffer with slots `b`, a `nextReadBuffer` call made
before any `nextWriteBuffer` call (after any number `k` of earlier reads) returns slot 0;
the one `nextWriteBuffer` call returns slot 2, and a `nextReadBuffer` call made after it
(after any number `j` of reads) returns slot 1, which still holds the constructor value
`b 1` whatever value `v` the producer stored. -/
theorem C15_reads_see_constructor_content (b : Fin 3 → Buffer) (v : Buffer) (k j : Nat) :
    ((mkFromBuffers b).run (List.replicate k Call.read)).nextReadBuffer.2 = some 0 ∧
    ((mkFromBuffers b).run (List.replicate k Call.read)).readValue =
      some (mkFromBuffers b, 0, b 0) ∧
    ∃ t t1 : TripleBuffer Buffer,
      ((mkFromBuffers b).run (List.replicate k Call.read)).writeValue v = some (t, 2) ∧
      (t.run (List.replicate j Call.read)).readValue = some (t1, 1, b 1) := by
  rw [run_reads_mkFromBuffers]
  have h0 : slotRef 0 = some 0 := by decide
  refine ⟨h0, readValue_mk 0 0 1 b 0 (b 0) (by decide) rfl,
    TripleBuffer.mk 1 0 2 (Function.update b 2 v),
    TripleBuffer.mk 1 1 2 (Function.update b 2 v),
    writeValue_mk 0 0 1 b v 2 2 (by decide) (by decide), ?_⟩
  rw [readValue_run_reads]
  refine readValue_mk _ _ _ _ 1 (b 1) (by decide) ?_
  rw [Function.update_noteq (by decide)]

/-! ## Reachable index states -/

theorem indices_nextWriteBuffer (tb : TripleBuffer Buffer) :
    tb.nextWriteBuffer.1.indices =
      (sizeSub 3 (sizeAdd tb.writeBuffer tb.readBuffer), tb.readBuffer, tb.writeBuffer) :=
  rfl

theorem indices_nextReadBuffer (tb : TripleBuffer Buffer) :
    tb.nextReadBuffer.1.indices = (tb.writeBuffer, tb.latestBuffer, tb.latestBuffer) :=
  rfl

/-- Index triple after a sequence of calls, computed on the indices alone. -/
theorem indices_run_ofIndices (cs : List Call) (t : Nat × Nat × Nat) (b : Fin 3 → Buffer) :
    ((ofIndices t b).run cs).indices = ((ofIndices t (fun _ => ())).run cs).indices := by
  induction cs generalizing t with
  | nil => rfl
  | cons c cs ih =>
    cases c
    · exact ih (sizeSub 3 (sizeAdd t.1 t.2.1), t.2.1, t.1)
    · exact ih (t.1, t.2.2, t.2.2)

/-- C16: the index states reachable from the initial state `(1,0,0)` by finite sequences of
`nextWriteBuffer` and `nextReadBuffer` calls are exactly the triples
`(write, read, latest)` over `{0,1,2}` with `write` different from `read` and from
`latest`. -/
theorem C16_reachable_index_states (b : Fin 3 → Buffer) (t : Nat × Nat × Nat) :
    (∃ cs : List Call, ((mkFromBuffers b).run cs).indices = t) ↔
      (t.1 < 3 ∧ t.2.1 < 3 ∧ t.2.2 < 3 ∧ t.1 ≠ t.2.1 ∧ t.1 ≠ t.2.2) := by
  constructor
  · rintro ⟨cs, rfl⟩
    exact valid_run cs _ (valid_mkFromBuffers b)
  · obtain ⟨w, r, l⟩ := t
    rintro ⟨hw, hr, hl, h1, h2⟩
    simp only at hw hr hl h1 h2
    have key : ∀ cs : List Call, (fresh0.run cs).indices = (w, r, l) →
        ∃ cs : List Call, ((mkFromBuffers b).run cs).indices = (w, r, l) := by
      intro cs h
      refine ⟨cs, ?_⟩
      have e1 := indices_run_ofIndices cs (1, 0, 0) b
      have e2 := indices_run_ofIndices cs (1, 0, 0) (fun _ : Fin 3 => (0 : Nat))
      exact (e1.trans e2.symm).trans h
    interval_cases w <;> interval_cases r <;> interval_cases l <;>
      first
      | omega
      | exact key [] (by decide)
      | exact key [Call.write] (by decide)
      | exact key [Call.write, Call.write] (by decide)
      | exact key [Call.write, Call.read] (by decide)
      | exact key [Call.write, Call.write, Call.read] (by decide)
      | exact key [Call.write, Call.read, Call.write] (by decide)
      | exact key [Call.write, Call.write, Call.read, Call.write] (by decide)
      | exact key [Call.write, Call.read, Call.write, Call.write] (by decide)
      | exact key [Call.write, Call.read, Call.write, Call.read] (by decide)
      | exact key [Call.write, Call.write, Call.read, Call.write, Call.write] (by decide)
      | exact key [Call.write, Call.write, Call.read, Call.write, Call.read] (by decide)
      | exact key [Call.write, Call.read, Call.write, Call.write, Call.read] (by decide)

/-! ## The subtraction outside I1 -/

/-- C17: with `std::size_t` arithmetic modulo `2 ^ 64`, on every state whose `write` and
`read` indices are in `{0,1,2}` (whatever `latest` is), the write index computed by
`nextWriteBuffer` is below 3 and different from `read` and from the new `latest` exactly
when the prior `write` differs from `read`; when the prior `write` equals `read` the
computed index is 3 (for 0), the wrapped value `2 ^ 64 - 1` (for 2) or `read` itself
(for 1). -/
theorem C17_write_index_iff (tb : TripleBuffer Buffer) (hw : tb.writeBuffer < 3)
    (hr : tb.readBuffer < 3) :
    ((tb.nextWriteBuffer.1.writeBuffer < 3 ∧
        tb.nextWriteBuffer.1.writeBuffer ≠ tb.nextWriteBuffer.1.readBuffer ∧
        tb.nextWriteBuffer.1.writeBuffer ≠ tb.nextWriteBuffer.1.latestBuffer) ↔
      tb.writeBuffer ≠ tb.readBuffer) ∧
    (tb.writeBuffer = tb.readBuffer →
      (3 ≤ tb.nextWriteBuffer.1.writeBuffer ∨
        tb.nextWriteBuffer.1.writeBuffer = tb.nextWriteBuffer.1.readBuffer)) ∧
    (tb.writeBuffer = tb.readBuffer →
      ((tb.writeBuffer = 0 ∧ tb.nextWriteBuffer.1.writeBuffer = 3) ∨
        (tb.writeBuffer = 1 ∧ tb.nextWriteBuffer.1.writeBuffer = 1) ∨
        (tb.writeBuffer = 2 ∧ tb.nextWriteBuffer.1.writeBuffer = 2 ^ 64 - 1))) := by
  obtain ⟨l, r, w, b⟩ := tb
  simp only at hw hr
  simp only [nextWriteBuffer, nextWriteBufferIndex, sizeSub, sizeAdd, sizeMod, buffersSize]
  interval_cases w <;> interval_cases r <;> simp

/-- C17 at the state `(write, read, latest) = (2, 2, 0)`, where the subtraction wraps. -/
theorem C17_write_index_iff_witness :
    (ofIndices (2, 2, 0) (fun _ => ())).writeBuffer < 3 ∧
    (ofIndices (2, 2, 0) (fun _ => ())).readBuffer < 3 ∧
    (((ofIndices (2, 2, 0) (fun _ => ())).nextWriteBuffer.1.writeBuffer < 3 ∧
        (ofIndices (2, 2, 0) (fun _ => ())).nextWriteBuffer.1.writeBuffer ≠
          (ofIndices (2, 2, 0) (fun _ => ())).nextWriteBuffer.1.readBuffer ∧
        (ofIndices (2, 2, 0) (fun _ => ())).nextWriteBuffer.1.writeBuffer ≠
          (ofIndices (2, 2, 0) (fun _ => ())).nextWriteBuffer.1.latestBuffer) ↔
      (ofIndices (2, 2, 0) (fun _ => ())).writeBuffer ≠
        (ofIndices (2, 2, 0) (fun _ => ())).readBuffer) ∧
    ((ofIndices (2, 2, 0) (fun _ => ())).writeBuffer =
        (ofIndices (2, 2, 0) (fun _ => ())).readBuffer →
      (3 ≤ (ofIndices (2, 2, 0) (fun _ => ())).nextWriteBuffer.1.writeBuffer ∨
        (ofIndices (2, 2, 0) (fun _ => ())).nextWriteBuffer.1.writeBuffer =
          (ofIndices (2, 2, 0) (fun _ => ())).nextWriteBuffer.1.readBuffer)) ∧
    ((ofIndices (2, 2, 0) (fun _ => ())).writeBuffer =
        (ofIndices (2, 2, 0) (fun _ => ())).readBuffer →
      (((ofIndices (2, 2, 0) (fun _ => ())).writeBuffer = 0 ∧
          (ofIndices (2, 2, 0) (fun _ => ())).nextWriteBuffer.1.writeBuffer = 3) ∨
        ((ofIndices (2, 2, 0) (fun _ => ())).writeBuffer = 1 ∧
          (ofIndices (2, 2, 0) (fun _ => ())).nextWriteBuffer.1.writeBuffer = 1) ∨
        ((ofIndices (2, 2, 0) (fun _ => ())).writeBuffer = 2 ∧
          (ofIndices (2, 2, 0) (fun _ => ())).nextWriteBuffer.1.writeBuffer = 2 ^ 64 - 1))) :=
  ⟨by decide, by decide, C17_write_index_iff (ofIndices (2, 2, 0) (fun _ => ())) (by decide)
    (by decide)⟩

end TripleBuffer
